import Mathlib

/-!
Shallow embedding of the trading engine of this repository:
the risk ledger (`RiskManager`), the moving-average strategy
(`QuantStrategy`) from `quant_trading_safe.py`, and the pending-signal
approval state machine from `quant_dashboard_mobile_api.py`.

Python floats are modelled as rationals, Python dicts as association
lists keyed by strings, and the mutating methods as pure functions that
return the updated state.
-/

namespace Trading

/-- Lookup in an association list, mirroring Python `d.get(k)`. -/
def lookupKey {α : Type} (k : String) : List (String × α) → Option α
  | [] => none
  | (k₂, v) :: rest => if k₂ = k then some v else lookupKey k rest

/-- Removal of a key, mirroring Python `del d[k]` / `d.pop(k, None)`. -/
def eraseKey {α : Type} (k : String) : List (String × α) → List (String × α)
  | [] => []
  | p :: rest => if p.1 = k then eraseKey k rest else p :: eraseKey k rest

/-- Key assignment, mirroring Python `d[k] = v`. -/
def setKey {α : Type} (k : String) (v : α) (l : List (String × α)) : List (String × α) :=
  eraseKey k l ++ [(k, v)]

/-- In-place update of the value stored at a key, mirroring a Python
mutation of the dict entry object such as `d[k]["status"] = s`. -/
def updateKey {α : Type} (k : String) (f : α → α) : List (String × α) → List (String × α)
  | [] => []
  | p :: rest =>
      if p.1 = k then (p.1, f p.2) :: updateKey k f rest
      else p :: updateKey k f rest

/-- Python `int(x)` on a float/rational: truncation toward zero. -/
def pyInt (q : ℚ) : ℤ :=
  if q < 0 then -(Int.floor (-q)) else Int.floor q

/-- Python slice `l[-n:]` for a nonnegative `n` (note `l[-0:] = l`). -/
def pySliceLast (n : ℕ) (l : List ℚ) : List ℚ :=
  if n = 0 then l else l.drop (l.length - n)

/-- Direction of a trade or signal: the Python strings `"buy"` / `"sell"`. -/
inductive Direction
  | buy
  | sell
deriving DecidableEq

/-- One entry of `RiskManager.positions`:
`{"buy_price": price, "quantity": quantity, "buy_time": datetime.now()}`. -/
structure Position where
  buy_price : ℚ
  quantity : ℤ
  buy_time : ℚ
deriving DecidableEq

/-- The state of `quant_trading_safe.RiskManager` (configuration limits
plus the tracked daily counters, positions and last prices). -/
structure RiskManager where
  account_balance : ℚ
  max_position_size_ratio : ℚ
  max_single_trade_amount : ℚ
  stop_loss_ratio : ℚ
  take_profit_ratio : ℚ
  daily_loss_limit : ℚ
  max_trades_per_day : ℕ
  min_price_change_ratio : ℚ
  daily_trades : ℕ
  daily_pnl : ℚ
  positions : List (String × Position)
  last_prices : List (String × ℚ)
deriving DecidableEq

/-- The distinct rejection reasons returned by `RiskManager.can_trade`
(the Korean reason strings of the source, one constructor per string),
plus `ok` for the accepting `"OK"` result. -/
inductive TradeReason
  | dailyTradeLimit
  | dailyLossLimit
  | tradeAmountTooLarge
  | positionSizeTooLarge
  | alreadyHolding
  | priceChangeTooSmall
  | ok
deriving DecidableEq

/-- `RiskManager.can_trade(stock_code, price, quantity)`: the six checks
in source order, first firing check wins. -/
def can_trade (rm : RiskManager) (stock_code : String) (price : ℚ) (quantity : ℤ) :
    Bool × TradeReason :=
  if rm.daily_trades ≥ rm.max_trades_per_day then
    (false, TradeReason.dailyTradeLimit)
  else if rm.daily_pnl ≤ -rm.daily_loss_limit then
    (false, TradeReason.dailyLossLimit)
  else if price * (quantity : ℚ) > rm.max_single_trade_amount then
    (false, TradeReason.tradeAmountTooLarge)
  else if price * (quantity : ℚ) > rm.account_balance * rm.max_position_size_ratio then
    (false, TradeReason.positionSizeTooLarge)
  else if (lookupKey stock_code rm.positions).isSome then
    (false, TradeReason.alreadyHolding)
  else
    match lookupKey stock_code rm.last_prices with
    | some last_price =>
        if |price - last_price| / last_price < rm.min_price_change_ratio then
          (false, TradeReason.priceChangeTooSmall)
        else (true, TradeReason.ok)
    | none => (true, TradeReason.ok)

/-- `RiskManager.calculate_quantity(price)`:
`max(1, int(min(max_single_trade_amount, account_balance * max_position_size_ratio) / price))`. -/
def calculate_quantity (rm : RiskManager) (price : ℚ) : ℤ :=
  let max_trade_amount :=
    min rm.max_single_trade_amount (rm.account_balance * rm.max_position_size_ratio)
  max 1 (pyInt (max_trade_amount / price))

/-- `RiskManager.update_position(stock_code, price, quantity, action)`;
returns the pnl of the Python method together with the updated manager.
`now` stands for the `datetime.now()` recorded on a buy. -/
def update_position (rm : RiskManager) (stock_code : String) (price : ℚ)
    (quantity : ℤ) (action : Direction) (now : ℚ) : ℚ × RiskManager :=
  match action with
  | Direction.buy =>
      (0, { rm with
            positions := setKey stock_code ⟨price, quantity, now⟩ rm.positions,
            daily_trades := rm.daily_trades + 1,
            last_prices := setKey stock_code price rm.last_prices })
  | Direction.sell =>
      match lookupKey stock_code rm.positions with
      | some pos =>
          let pnl := (price - pos.buy_price) * (quantity : ℚ)
          (pnl, { rm with
                  daily_pnl := rm.daily_pnl + pnl,
                  positions := eraseKey stock_code rm.positions,
                  last_prices := eraseKey stock_code rm.last_prices })
      | none => (0, rm)

/-- `RiskManager.update_price(stock_code, price)`. -/
def rm_update_price (rm : RiskManager) (stock_code : String) (price : ℚ) : RiskManager :=
  { rm with last_prices := setKey stock_code price rm.last_prices }

/-- `RiskManager.check_stop_loss_take_profit(stock_code, current_price)`. -/
def check_stop_loss_take_profit (rm : RiskManager) (stock_code : String)
    (current_price : ℚ) : Option Direction :=
  match lookupKey stock_code rm.positions with
  | none => none
  | some pos =>
      let change_ratio := (current_price - pos.buy_price) / pos.buy_price
      if change_ratio ≤ -rm.stop_loss_ratio then some Direction.sell
      else if change_ratio ≥ rm.take_profit_ratio then some Direction.sell
      else none

/-- The state of `quant_trading_safe.QuantStrategy` (per-symbol price
history and the moving-average periods); the referenced risk manager is
passed explicitly to the functions that read it. -/
structure QuantStrategy where
  price_history : List (String × List ℚ)
  short_ma_period : ℕ
  long_ma_period : ℕ
  min_history_length : ℕ
deriving DecidableEq

/-- `QuantStrategy.update_price(stock_code, price)`: append, then keep
only the most recent `long_ma_period * 3` entries. -/
def strat_update_price (qs : QuantStrategy) (stock_code : String) (price : ℚ) :
    QuantStrategy :=
  let old := (lookupKey stock_code qs.price_history).getD []
  let appended := old ++ [price]
  let max_history := qs.long_ma_period * 3
  let newHist := if appended.length > max_history then pySliceLast max_history appended
                 else appended
  { qs with price_history := setKey stock_code newHist qs.price_history }

/-- `QuantStrategy.calculate_ma(stock_code, period)`. -/
def calculate_ma (qs : QuantStrategy) (stock_code : String) (period : ℕ) : Option ℚ :=
  match lookupKey stock_code qs.price_history with
  | none => none
  | some prices =>
      if prices.length < period then none
      else some ((pySliceLast period prices).sum / (period : ℚ))

/-- `QuantStrategy.get_signal(stock_code, current_price)`: updates the
price history first, then derives a signal; returns the signal together
with the updated strategy state. `rm` is the referenced risk manager,
which the method only reads (`positions`). -/
def get_signal (qs : QuantStrategy) (rm : RiskManager) (stock_code : String)
    (current_price : ℚ) : Option Direction × QuantStrategy :=
  let qs₂ := strat_update_price qs stock_code current_price
  (match lookupKey stock_code qs₂.price_history with
   | none => none
   | some prices =>
      if prices.length < qs₂.min_history_length then none
      else
        match calculate_ma qs₂ stock_code qs₂.short_ma_period,
              calculate_ma qs₂ stock_code qs₂.long_ma_period with
        | some short_ma, some long_ma =>
            if short_ma > long_ma ∧ current_price > short_ma ∧
                lookupKey stock_code rm.positions = none then
              some Direction.buy
            else if short_ma < long_ma ∧ (lookupKey stock_code rm.positions).isSome then
              some Direction.sell
            else none
        | _, _ => none,
   qs₂)

/-- The strategy-reconfiguration endpoint `update_strategy_config` of
`quant_dashboard_mobile_api.py`: validates the periods and either
rejects without touching the strategy or assigns
`short_ma_period`, `long_ma_period` and `min_history_length`. -/
def update_strategy_config (qs : QuantStrategy) (short_period long_period : ℤ) :
    Bool × QuantStrategy :=
  if short_period < 2 ∨ long_period < 3 then (false, qs)
  else if short_period ≥ long_period then (false, qs)
  else (true, { qs with
                short_ma_period := short_period.toNat,
                long_ma_period := long_period.toNat,
                min_history_length := long_period.toNat })

/-- The `status` field of a pending signal:
`pending`, `approved`, `rejected`, `failed`, `expired`. -/
inductive SigStatus
  | pending
  | approved
  | rejected
  | failed
  | expired
deriving DecidableEq

/-- One entry of the `state.pending_signals` table, as built by
`_build_pending_signal` in `quant_dashboard_mobile_api.py`. -/
structure PendingSignal where
  signal_id : String
  stock_code : String
  signal : Direction
  price : ℚ
  suggested_qty : ℤ
  reason : String
  created_at : ℚ
  expires_at : ℚ
  status : SigStatus
deriving DecidableEq

/-- The `state.pending_signals` dict, keyed by `signal_id`. -/
abbrev SignalTable := List (String × PendingSignal)

/-- `_build_pending_signal(stock_code, signal, price, reason)`:
suggested quantity from the risk manager (buy: `calculate_quantity`;
sell: the open position quantity, else 0), expiry `now + 60`, status
`pending`. The fresh id is passed in explicitly. -/
def build_pending_signal (rm : RiskManager) (stock_code : String) (dir : Direction)
    (price : ℚ) (reason : String) (signal_id : String) (now : ℚ) : PendingSignal :=
  let suggested_qty : ℤ :=
    match dir with
    | Direction.buy => calculate_quantity rm price
    | Direction.sell =>
        match lookupKey stock_code rm.positions with
        | some pos => pos.quantity
        | none => 0
  { signal_id := signal_id, stock_code := stock_code, signal := dir, price := price,
    suggested_qty := suggested_qty, reason := reason, created_at := now,
    expires_at := now + 60, status := SigStatus.pending }

/-- The first sweep of `_create_or_replace_pending_signal`: drop every
entry whose status is not `pending` or whose `expires_at` has passed. -/
def sweep_stale (now : ℚ) (table : SignalTable) : SignalTable :=
  table.filter (fun p => p.2.status = SigStatus.pending ∧ ¬(p.2.expires_at < now))

/-- The second sweep of `_create_or_replace_pending_signal`: drop every
still-pending entry for the same `(stock_code, signal)` pair. -/
def drop_same_pair (stock_code : String) (dir : Direction) (table : SignalTable) :
    SignalTable :=
  table.filter (fun p =>
    ¬(p.2.status = SigStatus.pending ∧ p.2.stock_code = stock_code ∧ p.2.signal = dir))

/-- `_create_or_replace_pending_signal(signal_data)`: sweep stale
entries, discard any pending same-pair entry, then store the new signal
under its id. -/
def create_or_replace_pending_signal (table : SignalTable) (sig : PendingSignal)
    (now : ℚ) : SignalTable :=
  setKey sig.signal_id sig (drop_same_pair sig.stock_code sig.signal (sweep_stale now table))

/-- The outcome reported by the `approve_signal` endpoint: its three
failure messages, and the resolution status broadcast otherwise. -/
inductive ApproveOutcome
  | notFound
  | alreadyResolved
  | expired
  | approvedOk
  | orderFailed
deriving DecidableEq

/-- The `approve_signal` endpoint on the signal table. `exec_result` is
the boolean returned by `safe_execute_order` (the order executor); the
final component records whether that executor was invoked at all.
An expired signal is marked `expired` but kept in the table; a resolved
signal is marked `approved`/`failed` and removed. -/
def approve_signal (table : SignalTable) (signal_id : String) (now : ℚ)
    (exec_result : Bool) : ApproveOutcome × SignalTable × Bool :=
  match lookupKey signal_id table with
  | none => (ApproveOutcome.notFound, table, false)
  | some sig =>
      if sig.status ≠ SigStatus.pending then (ApproveOutcome.alreadyResolved, table, false)
      else if sig.expires_at < now then
        (ApproveOutcome.expired,
         updateKey signal_id (fun s => { s with status := SigStatus.expired }) table,
         false)
      else if exec_result then
        (ApproveOutcome.approvedOk, eraseKey signal_id table, true)
      else
        (ApproveOutcome.orderFailed, eraseKey signal_id table, true)

/-- The `reject_signal` endpoint: fails only when the id is absent;
otherwise sets the status to `rejected` (the resolved entry it
broadcasts is returned as the middle component) and removes the entry. -/
def reject_signal (table : SignalTable) (signal_id : String) :
    Bool × Option PendingSignal × SignalTable :=
  match lookupKey signal_id table with
  | none => (false, none, table)
  | some sig =>
      (true, some { sig with status := SigStatus.rejected }, eraseKey signal_id table)

/-- One user/engine operation on the pending-signal table. -/
inductive RegistryOp
  | create (sig : PendingSignal) (now : ℚ)
  | approve (signal_id : String) (now : ℚ) (exec_result : Bool)
  | reject (signal_id : String)

/-- Effect of one operation on the table. -/
def applyOp (table : SignalTable) : RegistryOp → SignalTable
  | RegistryOp.create sig now => create_or_replace_pending_signal table sig now
  | RegistryOp.approve signal_id now exec_result =>
      (approve_signal table signal_id now exec_result).2.1
  | RegistryOp.reject signal_id => (reject_signal table signal_id).2.2

/-- Effect of a sequence of operations, applied left to right. -/
def applyOps (ops : List RegistryOp) (table : SignalTable) : SignalTable :=
  ops.foldl applyOp table

/-- A signal is live at time `now` when it is pending and unexpired
(the filter used by the pending-signal listing endpoint). -/
def liveAt (now : ℚ) (s : PendingSignal) : Prop :=
  s.status = SigStatus.pending ∧ s.expires_at ≥ now

/-- At most one pending entry per `(stock_code, signal direction)` pair. -/
def pendingUnique (table : SignalTable) : Prop :=
  ∀ p₁ ∈ table, ∀ p₂ ∈ table,
    p₁.2.status = SigStatus.pending → p₂.2.status = SigStatus.pending →
    p₁.2.stock_code = p₂.2.stock_code → p₁.2.signal = p₂.2.signal → p₁ = p₂

/-! Association-list lemmas. -/

theorem lookupKey_append {α : Type} (k : String) (l₁ l₂ : List (String × α)) :
    lookupKey k (l₁ ++ l₂) =
      match lookupKey k l₁ with
      | some v => some v
      | none => lookupKey k l₂ := by
  induction l₁ with
  | nil => rfl
  | cons p rest ih =>
      rcases p with ⟨k₂, v⟩
      by_cases h : k₂ = k
      · simp [lookupKey, h]
      · simp [lookupKey, h, ih]

theorem lookupKey_eraseKey_self {α : Type} (k : String) (l : List (String × α)) :
    lookupKey k (eraseKey k l) = none := by
  induction l with
  | nil => rfl
  | cons p rest ih =>
      rcases p with ⟨kp, v⟩
      by_cases h : kp = k
      · simpa [eraseKey, h] using ih
      · simpa [eraseKey, lookupKey, h] using ih

theorem lookupKey_eraseKey_ne {α : Type} {k k₂ : String} (h : k₂ ≠ k)
    (l : List (String × α)) : lookupKey k₂ (eraseKey k l) = lookupKey k₂ l := by
  induction l with
  | nil => rfl
  | cons p rest ih =>
      rcases p with ⟨kp, v⟩
      by_cases hp : kp = k
      · simp [eraseKey, lookupKey, hp, Ne.symm h, ih]
      · by_cases hk : kp = k₂
        · simp [eraseKey, lookupKey, hp, hk, h]
        · simp [eraseKey, lookupKey, hp, hk, ih]

theorem lookupKey_setKey_self {α : Type} (k : String) (v : α) (l : List (String × α)) :
    lookupKey k (setKey k v l) = some v := by
  simp [setKey, lookupKey_append, lookupKey_eraseKey_self, lookupKey]

theorem lookupKey_setKey_ne {α : Type} {k k₂ : String} (h : k₂ ≠ k) (v : α)
    (l : List (String × α)) : lookupKey k₂ (setKey k v l) = lookupKey k₂ l := by
  rw [setKey, lookupKey_append, lookupKey_eraseKey_ne h]
  cases hx : lookupKey k₂ l with
  | none => simp [lookupKey, Ne.symm h]
  | some v₂ => rfl

theorem lookupKey_updateKey_self {α : Type} (k : String) (f : α → α)
    (l : List (String × α)) :
    lookupKey k (updateKey k f l) = (lookupKey k l).map f := by
  induction l with
  | nil => rfl
  | cons p rest ih =>
      rcases p with ⟨k₂, v⟩
      by_cases h : k₂ = k
      · simp [updateKey, lookupKey, h]
      · simp [updateKey, lookupKey, h, ih]

theorem mem_of_mem_eraseKey {α : Type} {k : String} {p : String × α} :
    ∀ {l : List (String × α)}, p ∈ eraseKey k l → p ∈ l := by
  intro l
  induction l with
  | nil => intro h; exact absurd h (by simp [eraseKey])
  | cons q rest ih =>
      intro h
      rw [eraseKey] at h
      by_cases hq : q.1 = k
      · rw [if_pos hq] at h
        exact List.mem_cons_of_mem q (ih h)
      · rw [if_neg hq] at h
        rcases List.mem_cons.mp h with h₁ | h₁
        · exact h₁ ▸ List.mem_cons_self q rest
        · exact List.mem_cons_of_mem q (ih h₁)

/-- Example risk manager with the limits assigned in `RiskManager.__init__`. -/
def defaultRiskManager (account_balance : ℚ) : RiskManager :=
  { account_balance := account_balance
    max_position_size_ratio := 1/10
    max_single_trade_amount := 1000000
    stop_loss_ratio := 2/100
    take_profit_ratio := 5/100
    daily_loss_limit := 500000
    max_trades_per_day := 5
    min_price_change_ratio := 1/100
    daily_trades := 0
    daily_pnl := 0
    positions := []
    last_prices := [] }

/-- Example strategy with the periods assigned in `QuantStrategy.__init__`. -/
def defaultQuantStrategy : QuantStrategy :=
  { price_history := [], short_ma_period := 3, long_ma_period := 10,
    min_history_length := 10 }

/-- C9: reconfiguration of the moving-average periods succeeds iff
`shortPeriod ≥ 2`, `longPeriod ≥ 3` and `shortPeriod < longPeriod`; on
success it assigns `short_ma_period`, `long_ma_period` and
`min_history_length = longPeriod`; on rejection the strategy state is
returned unchanged. -/
theorem strategy_reconfigure_valid_iff :
    ∀ (qs : QuantStrategy) (s l : ℤ),
      ((2 ≤ s ∧ 3 ≤ l ∧ s < l) →
        update_strategy_config qs s l =
          (true, { qs with
                   short_ma_period := s.toNat,
                   long_ma_period := l.toNat,
                   min_history_length := l.toNat })) ∧
      (¬(2 ≤ s ∧ 3 ≤ l ∧ s < l) →
        update_strategy_config qs s l = (false, qs)) := by
  intro qs s l
  constructor
  · rintro ⟨h₁, h₂, h₃⟩
    unfold update_strategy_config
    rw [if_neg (by omega), if_neg (by omega)]
  · intro h
    unfold update_strategy_config
    split_ifs with ha hb
    · rfl
    · rfl
    · exact absurd ⟨by omega, by omega, by omega⟩ h

theorem strategy_reconfigure_valid_iff_witness :
    update_strategy_config defaultQuantStrategy 3 10 =
      (true, { defaultQuantStrategy with
               short_ma_period := 3, long_ma_period := 10,
               min_history_length := 10 }) ∧
    update_strategy_config defaultQuantStrategy 10 3 =
      (false, defaultQuantStrategy) :=
  ⟨(strategy_reconfigure_valid_iff defaultQuantStrategy 3 10).1
      ⟨by decide, by decide, by decide⟩,
   (strategy_reconfigure_valid_iff defaultQuantStrategy 10 3).2 (by decide)⟩

/-- C5: a sell with an existing position returns exactly
`(price - buyPrice) * quantity`, adds it to `daily_pnl`, deletes the
position and the symbol's last-price entry, and leaves `daily_trades`
unchanged; a sell without a position returns `0` and changes nothing. -/
theorem update_position_sell_spec :
    ∀ (rm : RiskManager) (stock_code : String) (price : ℚ) (quantity : ℤ) (now : ℚ),
      (∀ pos, lookupKey stock_code rm.positions = some pos →
        update_position rm stock_code price quantity Direction.sell now =
          ((price - pos.buy_price) * (quantity : ℚ),
           { rm with
             daily_pnl := rm.daily_pnl + (price - pos.buy_price) * (quantity : ℚ),
             positions := eraseKey stock_code rm.positions,
             last_prices := eraseKey stock_code rm.last_prices }) ∧
        ((update_position rm stock_code price quantity Direction.sell now).2).daily_trades
          = rm.daily_trades) ∧
      (lookupKey stock_code rm.positions = none →
        update_position rm stock_code price quantity Direction.sell now = (0, rm)) := by
  intro rm stock_code price quantity now
  constructor
  · intro pos hpos
    unfold update_position
    rw [hpos]
    exact ⟨rfl, rfl⟩
  · intro hnone
    unfold update_position
    rw [hnone]

/-- Risk manager holding one position, for the C5 witness. -/
def sellWitnessRM : RiskManager :=
  { defaultRiskManager 100000 with
    positions := [("005930", ⟨50000, 2, 0⟩)],
    last_prices := [("005930", 51000)] }

theorem update_position_sell_spec_witness :
    (update_position sellWitnessRM "005930" 51000 2 Direction.sell 0).1 =
      ((51000 : ℚ) - 50000) * ((2 : ℤ) : ℚ) ∧
    (update_position sellWitnessRM "005930" 51000 2 Direction.sell 0).2.daily_trades =
      sellWitnessRM.daily_trades := by
  have h := (update_position_sell_spec sellWitnessRM "005930" 51000 2 0).1
    (⟨50000, 2, 0⟩ : Position) rfl
  exact ⟨by rw [h.1], h.2⟩

/-- Risk manager holding a position bought at 1000 with the default
2% stop-loss, for the C7 boundary examples. -/
def stopLossExampleRM : RiskManager :=
  { defaultRiskManager 10000000 with positions := [("005930", ⟨1000, 1, 0⟩)] }

/-- C7: `check_stop_loss_take_profit` returns `sell` iff a position
exists and the change ratio reaches the stop-loss or take-profit
boundary (both inclusive), otherwise `none` (also when no position
exists); it is a pure function of
`(buyPrice, price, stopLossRatio, takeProfitRatio)`; with a buy at 1000
and 2% stop-loss, price 980 yields `sell` and price 981 yields `none`. -/
theorem check_stop_loss_take_profit_spec :
    (∀ (rm : RiskManager) (stock_code : String) (price : ℚ),
      (lookupKey stock_code rm.positions = none →
        check_stop_loss_take_profit rm stock_code price = none) ∧
      (∀ pos, lookupKey stock_code rm.positions = some pos →
        (check_stop_loss_take_profit rm stock_code price = some Direction.sell ↔
          (price - pos.buy_price) / pos.buy_price ≤ -rm.stop_loss_ratio ∨
          (price - pos.buy_price) / pos.buy_price ≥ rm.take_profit_ratio) ∧
        (check_stop_loss_take_profit rm stock_code price = some Direction.sell ∨
         check_stop_loss_take_profit rm stock_code price = none) ∧
        (∀ (rm₂ : RiskManager) (code₂ : String) (pos₂ : Position),
          lookupKey code₂ rm₂.positions = some pos₂ →
          pos₂.buy_price = pos.buy_price →
          rm₂.stop_loss_ratio = rm.stop_loss_ratio →
          rm₂.take_profit_ratio = rm.take_profit_ratio →
          check_stop_loss_take_profit rm₂ code₂ price =
            check_stop_loss_take_profit rm stock_code price))) ∧
    check_stop_loss_take_profit stopLossExampleRM "005930" 980 = some Direction.sell ∧
    check_stop_loss_take_profit stopLossExampleRM "005930" 981 = none := by
  refine ⟨?_,
    by simp only [check_stop_loss_take_profit, stopLossExampleRM, defaultRiskManager,
        lookupKey]; norm_num,
    by simp only [check_stop_loss_take_profit, stopLossExampleRM, defaultRiskManager,
        lookupKey]; norm_num⟩
  intro rm stock_code price
  refine ⟨?_, ?_⟩
  · intro hnone
    unfold check_stop_loss_take_profit
    rw [hnone]
  · intro pos hpos
    refine ⟨?_, ?_, ?_⟩
    · unfold check_stop_loss_take_profit
      rw [hpos]
      dsimp only
      split_ifs with h₁ h₂
      · exact iff_of_true rfl (Or.inl h₁)
      · exact iff_of_true rfl (Or.inr h₂)
      · exact iff_of_false (by simp) (not_or.mpr ⟨h₁, h₂⟩)
    · unfold check_stop_loss_take_profit
      rw [hpos]
      dsimp only
      split_ifs <;> simp
    · intro rm₂ code₂ pos₂ hpos₂ hbp hsl htp
      unfold check_stop_loss_take_profit
      rw [hpos, hpos₂]
      dsimp only
      rw [hbp, hsl, htp]

theorem check_stop_loss_take_profit_spec_witness :
    check_stop_loss_take_profit stopLossExampleRM "005930" 990 = none ∧
    check_stop_loss_take_profit stopLossExampleRM "005930" 980 = some Direction.sell := by
  have h := (check_stop_loss_take_profit_spec.1 stopLossExampleRM "005930" 990).2
    (⟨1000, 1, 0⟩ : Position)
    (by simp [stopLossExampleRM, defaultRiskManager, lookupKey])
  refine ⟨?_, check_stop_loss_take_profit_spec.2.1⟩
  rcases h.2.1 with hsell | hnone
  · exact absurd (h.1.mp hsell)
      (by norm_num [stopLossExampleRM, defaultRiskManager])
  · exact hnone

/-- C2: for positive `price` (and nonnegative limits),
`calculate_quantity` returns at least 1; the spent amount
`price * qty` exceeds `min(maxSingleTradeAmount,
balance * maxPositionSizeRatio)` by less than one share's price (the
integer-rounding slack, which is only used when the floor is clamped up
to 1), and is bounded by the minimum itself whenever no clamping
occurs. -/
theorem calculate_quantity_spec :
    ∀ (rm : RiskManager) (price : ℚ),
      0 < price →
      0 ≤ min rm.max_single_trade_amount (rm.account_balance * rm.max_position_size_ratio) →
      1 ≤ calculate_quantity rm price ∧
      price * (calculate_quantity rm price : ℚ) ≤
        min rm.max_single_trade_amount (rm.account_balance * rm.max_position_size_ratio)
          + price ∧
      (1 ≤ pyInt (min rm.max_single_trade_amount
            (rm.account_balance * rm.max_position_size_ratio) / price) →
        price * (calculate_quantity rm price : ℚ) ≤
          min rm.max_single_trade_amount
            (rm.account_balance * rm.max_position_size_ratio)) := by
  intro rm price hp hm
  set m := min rm.max_single_trade_amount (rm.account_balance * rm.max_position_size_ratio)
    with hmdef
  have hq : 0 ≤ m / price := div_nonneg hm hp.le
  have hpy : pyInt (m / price) = Int.floor (m / price) := by
    unfold pyInt
    rw [if_neg (not_lt.mpr hq)]
  have hcq : calculate_quantity rm price = max 1 (pyInt (m / price)) := rfl
  have hfloor_le : ((Int.floor (m / price) : ℤ) : ℚ) ≤ m / price := Int.floor_le _
  have hmul : price * ((Int.floor (m / price) : ℤ) : ℚ) ≤ m := by
    have h₁ : price * ((Int.floor (m / price) : ℤ) : ℚ) ≤ price * (m / price) :=
      mul_le_mul_of_nonneg_left hfloor_le hp.le
    have h₂ : price * (m / price) = m := by
      field_simp
    linarith
  rcases le_or_lt 1 (Int.floor (m / price)) with h₁ | h₁
  · have hmax : calculate_quantity rm price = Int.floor (m / price) := by
      rw [hcq, hpy]
      exact max_eq_right h₁
    refine ⟨by rw [hmax]; exact h₁, ?_, ?_⟩
    · rw [hmax]
      linarith
    · intro _
      rw [hmax]
      exact hmul
  · have hmax : calculate_quantity rm price = 1 := by
      rw [hcq, hpy]
      exact max_eq_left (by omega)
    refine ⟨by rw [hmax], ?_, ?_⟩
    · rw [hmax]
      push_cast
      linarith
    · intro hge
      rw [hpy] at hge
      omega

theorem calculate_quantity_spec_witness :
    calculate_quantity (defaultRiskManager 100000) 50000 = 1 ∧
    1 ≤ calculate_quantity (defaultRiskManager 100000) 50000 ∧
    (50000 : ℚ) * (calculate_quantity (defaultRiskManager 100000) 50000 : ℚ) ≤
      min (defaultRiskManager 100000).max_single_trade_amount
        ((defaultRiskManager 100000).account_balance *
          (defaultRiskManager 100000).max_position_size_ratio) + 50000 := by
  have h := calculate_quantity_spec (defaultRiskManager 100000) 50000
    (by norm_num) (by norm_num [defaultRiskManager])
  refine ⟨?_, h.1, h.2.1⟩
  simp only [calculate_quantity, defaultRiskManager, pyInt]
  norm_num

/-- C1: approving a pending signal whose `expires_at` has passed
(`now > expiresAt`) fails with the expired result, does not invoke the
order executor, and marks the signal `expired` in the table — so the
signal becomes neither `approved` nor `failed`. -/
theorem approve_expired_no_executor :
    ∀ (table : SignalTable) (signal_id : String) (sig : PendingSignal) (now : ℚ)
      (exec_result : Bool),
      lookupKey signal_id table = some sig →
      sig.status = SigStatus.pending →
      now > sig.expires_at →
      approve_signal table signal_id now exec_result =
        (ApproveOutcome.expired,
         updateKey signal_id (fun s => { s with status := SigStatus.expired }) table,
         false) ∧
      lookupKey signal_id (approve_signal table signal_id now exec_result).2.1 =
        some { sig with status := SigStatus.expired } := by
  intro table signal_id sig now exec_result hlook hstatus hexp
  have heq : approve_signal table signal_id now exec_result =
      (ApproveOutcome.expired,
       updateKey signal_id (fun s => { s with status := SigStatus.expired }) table,
       false) := by
    unfold approve_signal
    rw [hlook]
    dsimp only
    rw [if_neg (by simp [hstatus]), if_pos (show sig.expires_at < now from hexp)]
  refine ⟨heq, ?_⟩
  rw [heq]
  dsimp only
  rw [lookupKey_updateKey_self, hlook]
  rfl

/-- A pending signal created at time 0 with expiry 60, for the C1 witness. -/
def pendingExampleSig : PendingSignal :=
  { signal_id := "sig-a", stock_code := "005930", signal := Direction.buy,
    price := 1000, suggested_qty := 1, reason := "ma-cross", created_at := 0,
    expires_at := 60, status := SigStatus.pending }

theorem approve_expired_no_executor_witness :
    approve_signal [("sig-a", pendingExampleSig)] "sig-a" 100 true =
      (ApproveOutcome.expired,
       updateKey "sig-a" (fun s => { s with status := SigStatus.expired })
         [("sig-a", pendingExampleSig)],
       false) ∧
    lookupKey "sig-a"
        (approve_signal [("sig-a", pendingExampleSig)] "sig-a" 100 true).2.1 =
      some { pendingExampleSig with status := SigStatus.expired } :=
  approve_expired_no_executor [("sig-a", pendingExampleSig)] "sig-a"
    pendingExampleSig 100 true (by decide) rfl (by decide)

/-- A signal left in the table in the terminal `expired` status (as a
failed approve attempt leaves it), for the C3 counterexample. -/
def expiredExampleSig : PendingSignal :=
  { signal_id := "sig-x", stock_code := "005930", signal := Direction.buy,
    price := 1000, suggested_qty := 1, reason := "ma-cross", created_at := 0,
    expires_at := 60, status := SigStatus.expired }

/-- C3 counterexample: `reject_signal` is not a pending-only
transition. A signal whose status is already terminal (`expired`, the
state a prior failed approve leaves in the table) is nevertheless
transitioned to `rejected` and removed, so it reaches a terminal state
a second time, contradicting the claim. -/
theorem reject_not_pending_only_counterexample :
    expiredExampleSig.status = SigStatus.expired ∧
    expiredExampleSig.status ≠ SigStatus.pending ∧
    reject_signal [("sig-x", expiredExampleSig)] "sig-x" =
      (true, some { expiredExampleSig with status := SigStatus.rejected }, []) := by
  refine ⟨rfl, by decide, by decide⟩

/-- C3 amended: `reject_signal` fails only when the id is absent; for
any id present in the table — whatever the signal's current status,
pending or terminal — it sets the status to `rejected` and removes the
entry, so a signal left in the table in a terminal state can be
transitioned again. -/
theorem reject_any_present_spec :
    ∀ (table : SignalTable) (signal_id : String),
      (lookupKey signal_id table = none →
        reject_signal table signal_id = (false, none, table)) ∧
      (∀ sig, lookupKey signal_id table = some sig →
        reject_signal table signal_id =
          (true, some { sig with status := SigStatus.rejected },
           eraseKey signal_id table)) := by
  intro table signal_id
  constructor
  · intro h
    unfold reject_signal
    rw [h]
  · intro sig h
    unfold reject_signal
    rw [h]

theorem reject_any_present_spec_witness :
    reject_signal [("sig-x", expiredExampleSig)] "sig-x" =
      (true, some { expiredExampleSig with status := SigStatus.rejected },
       eraseKey "sig-x" [("sig-x", expiredExampleSig)]) :=
  (reject_any_present_spec [("sig-x", expiredExampleSig)] "sig-x").2
    expiredExampleSig (by decide)

/-- C6: `can_trade` evaluates its six rejection rules in the fixed
source order, returning the reason of the first rule that fires;
it returns `(true, OK)` iff none fires; and whenever
`daily_trades ≥ max_trades_per_day` every call is rejected with the
trade-limit reason regardless of the other arguments — and no ledger
operation ever decreases `daily_trades`, so only an external reset can
lift the block. -/
theorem can_trade_fixed_order_spec :
    ∀ (rm : RiskManager) (stock_code : String) (price : ℚ) (quantity : ℤ),
      (rm.daily_trades ≥ rm.max_trades_per_day →
        can_trade rm stock_code price quantity = (false, TradeReason.dailyTradeLimit)) ∧
      (rm.daily_trades < rm.max_trades_per_day →
        rm.daily_pnl ≤ -rm.daily_loss_limit →
        can_trade rm stock_code price quantity = (false, TradeReason.dailyLossLimit)) ∧
      (rm.daily_trades < rm.max_trades_per_day →
        ¬(rm.daily_pnl ≤ -rm.daily_loss_limit) →
        price * (quantity : ℚ) > rm.max_single_trade_amount →
        can_trade rm stock_code price quantity = (false, TradeReason.tradeAmountTooLarge)) ∧
      (rm.daily_trades < rm.max_trades_per_day →
        ¬(rm.daily_pnl ≤ -rm.daily_loss_limit) →
        price * (quantity : ℚ) ≤ rm.max_single_trade_amount →
        price * (quantity : ℚ) > rm.account_balance * rm.max_position_size_ratio →
        can_trade rm stock_code price quantity = (false, TradeReason.positionSizeTooLarge)) ∧
      (rm.daily_trades < rm.max_trades_per_day →
        ¬(rm.daily_pnl ≤ -rm.daily_loss_limit) →
        price * (quantity : ℚ) ≤ rm.max_single_trade_amount →
        price * (quantity : ℚ) ≤ rm.account_balance * rm.max_position_size_ratio →
        (lookupKey stock_code rm.positions).isSome = true →
        can_trade rm stock_code price quantity = (false, TradeReason.alreadyHolding)) ∧
      (rm.daily_trades < rm.max_trades_per_day →
        ¬(rm.daily_pnl ≤ -rm.daily_loss_limit) →
        price * (quantity : ℚ) ≤ rm.max_single_trade_amount →
        price * (quantity : ℚ) ≤ rm.account_balance * rm.max_position_size_ratio →
        lookupKey stock_code rm.positions = none →
        ∀ lp, lookupKey stock_code rm.last_prices = some lp →
          |price - lp| / lp < rm.min_price_change_ratio →
          can_trade rm stock_code price quantity = (false, TradeReason.priceChangeTooSmall)) ∧
      (can_trade rm stock_code price quantity = (true, TradeReason.ok) ↔
        rm.daily_trades < rm.max_trades_per_day ∧
        ¬(rm.daily_pnl ≤ -rm.daily_loss_limit) ∧
        price * (quantity : ℚ) ≤ rm.max_single_trade_amount ∧
        price * (quantity : ℚ) ≤ rm.account_balance * rm.max_position_size_ratio ∧
        lookupKey stock_code rm.positions = none ∧
        (∀ lp, lookupKey stock_code rm.last_prices = some lp →
          ¬(|price - lp| / lp < rm.min_price_change_ratio))) ∧
      (∀ (code₂ : String) (price₂ : ℚ) (qty₂ : ℤ) (action : Direction) (now : ℚ),
        rm.daily_trades ≤
          ((update_position rm code₂ price₂ qty₂ action now).2).daily_trades) := by
  intro rm stock_code price quantity
  refine ⟨?_, ?_, ?_, ?_, ?_, ?_, ?_, ?_⟩
  · intro h₁
    unfold can_trade
    rw [if_pos h₁]
  · intro h₁ h₂
    unfold can_trade
    rw [if_neg (by omega), if_pos h₂]
  · intro h₁ h₂ h₃
    unfold can_trade
    rw [if_neg (by omega), if_neg h₂, if_pos h₃]
  · intro h₁ h₂ h₃ h₄
    unfold can_trade
    rw [if_neg (by omega), if_neg h₂, if_neg (not_lt.mpr h₃), if_pos h₄]
  · intro h₁ h₂ h₃ h₄ h₅
    unfold can_trade
    rw [if_neg (by omega), if_neg h₂, if_neg (not_lt.mpr h₃), if_neg (not_lt.mpr h₄),
      if_pos h₅]
  · intro h₁ h₂ h₃ h₄ h₅ lp hlp h₆
    unfold can_trade
    rw [if_neg (by omega), if_neg h₂, if_neg (not_lt.mpr h₃), if_neg (not_lt.mpr h₄),
      h₅, if_neg (by simp), hlp]
    dsimp only
    rw [if_pos h₆]
  · constructor
    · intro hok
      unfold can_trade at hok
      by_cases h₁ : rm.daily_trades ≥ rm.max_trades_per_day
      · rw [if_pos h₁] at hok
        simp at hok
      rw [if_neg h₁] at hok
      by_cases h₂ : rm.daily_pnl ≤ -rm.daily_loss_limit
      · rw [if_pos h₂] at hok
        simp at hok
      rw [if_neg h₂] at hok
      by_cases h₃ : price * (quantity : ℚ) > rm.max_single_trade_amount
      · rw [if_pos h₃] at hok
        simp at hok
      rw [if_neg h₃] at hok
      by_cases h₄ : price * (quantity : ℚ) > rm.account_balance * rm.max_position_size_ratio
      · rw [if_pos h₄] at hok
        simp at hok
      rw [if_neg h₄] at hok
      cases hpos : lookupKey stock_code rm.positions with
      | some p =>
          rw [hpos] at hok
          simp at hok
      | none =>
          rw [hpos] at hok
          rw [if_neg (by simp)] at hok
          refine ⟨by omega, h₂, not_lt.mp h₃, not_lt.mp h₄, rfl, ?_⟩
          intro lp hlp hlt
          rw [hlp] at hok
          dsimp only at hok
          rw [if_pos hlt] at hok
          simp at hok
    · rintro ⟨h₁, h₂, h₃, h₄, h₅, h₆⟩
      unfold can_trade
      rw [if_neg (by omega), if_neg h₂, if_neg (not_lt.mpr h₃), if_neg (not_lt.mpr h₄),
        h₅, if_neg (by simp)]
      cases hlp : lookupKey stock_code rm.last_prices with
      | none => rfl
      | some lp =>
          dsimp only
          rw [if_neg (h₆ lp hlp)]
  · intro code₂ price₂ qty₂ action now
    cases action with
    | buy => simp [update_position]
    | sell =>
        cases hp : lookupKey code₂ rm.positions with
        | some pos => simp [update_position, hp]
        | none => simp [update_position, hp]

/-- Risk manager whose daily trade counter has reached the limit, for
the C6 witness. -/
def tradeLimitRM : RiskManager :=
  { defaultRiskManager 10000000 with daily_trades := 5 }

theorem can_trade_fixed_order_spec_witness :
    can_trade tradeLimitRM "005930" 1000 1 = (false, TradeReason.dailyTradeLimit) ∧
    can_trade (defaultRiskManager 10000000) "005930" 1000 1 = (true, TradeReason.ok) := by
  refine ⟨(can_trade_fixed_order_spec tradeLimitRM "005930" 1000 1).1 (by decide), ?_⟩
  refine
    (can_trade_fixed_order_spec (defaultRiskManager 10000000) "005930" 1000 1).2.2.2.2.2.2.1.mpr
      ⟨by decide, by norm_num [defaultRiskManager], by norm_num [defaultRiskManager],
       by norm_num [defaultRiskManager], rfl, ?_⟩
  intro lp hlp
  simp [defaultRiskManager, lookupKey] at hlp

/-! Lemmas about the strategy update. -/

theorem strat_update_price_short (qs : QuantStrategy) (stock_code : String) (price : ℚ) :
    (strat_update_price qs stock_code price).short_ma_period = qs.short_ma_period := rfl

theorem strat_update_price_long (qs : QuantStrategy) (stock_code : String) (price : ℚ) :
    (strat_update_price qs stock_code price).long_ma_period = qs.long_ma_period := rfl

theorem strat_update_price_min (qs : QuantStrategy) (stock_code : String) (price : ℚ) :
    (strat_update_price qs stock_code price).min_history_length = qs.min_history_length := rfl

theorem get_signal_snd (qs : QuantStrategy) (rm : RiskManager) (stock_code : String)
    (current_price : ℚ) :
    (get_signal qs rm stock_code current_price).2 =
      strat_update_price qs stock_code current_price := rfl

theorem lookup_strat_update_price (qs : QuantStrategy) (stock_code : String) (price : ℚ) :
    lookupKey stock_code (strat_update_price qs stock_code price).price_history =
      some (if (((lookupKey stock_code qs.price_history).getD []) ++ [price]).length >
                qs.long_ma_period * 3 then
              pySliceLast (qs.long_ma_period * 3)
                (((lookupKey stock_code qs.price_history).getD []) ++ [price])
            else ((lookupKey stock_code qs.price_history).getD []) ++ [price]) := by
  unfold strat_update_price
  dsimp only
  rw [lookupKey_setKey_self]

theorem calculate_ma_of_lookup (qs : QuantStrategy) (stock_code : String)
    (prices : List ℚ) (k : ℕ) (hl : lookupKey stock_code qs.price_history = some prices)
    (hk : ¬(prices.length < k)) :
    calculate_ma qs stock_code k = some ((pySliceLast k prices).sum / (k : ℚ)) := by
  unfold calculate_ma
  rw [hl]
  dsimp only
  rw [if_neg hk]

theorem pySliceLast_const_mean (prices : List ℚ) (c : ℚ) (k : ℕ) (hk : 0 < k)
    (hlen : k ≤ prices.length) (hc : ∀ x ∈ prices, x = c) :
    (pySliceLast k prices).sum / (k : ℚ) = c := by
  have hmem : ∀ x ∈ pySliceLast k prices, x = c := by
    intro x hx
    apply hc
    unfold pySliceLast at hx
    rw [if_neg (by omega)] at hx
    exact List.drop_subset _ _ hx
  have hlength : (pySliceLast k prices).length = k := by
    unfold pySliceLast
    rw [if_neg (by omega), List.length_drop]
    omega
  have hk₂ : (k : ℚ) ≠ 0 := Nat.cast_ne_zero.mpr (by omega)
  rw [List.sum_eq_card_nsmul _ c hmem, hlength, nsmul_eq_mul]
  exact mul_div_cancel_left₀ c hk₂

/-- C8: with `min_history_length = longPeriod` (as maintained by
initialization and reconfiguration) and sane periods, `get_signal`
returns `none` when the symbol's (updated) history is shorter than the
long period; otherwise it returns `buy` iff shortMA > longMA, the price
is above the shortMA and no position is open, `sell` iff
shortMA < longMA and a position is open; and on an all-equal history of
sufficient length it returns `none` because the two averages
coincide. -/
theorem get_signal_crossover_spec :
    ∀ (qs : QuantStrategy) (rm : RiskManager) (stock_code : String) (price : ℚ)
      (prices : List ℚ),
      qs.min_history_length = qs.long_ma_period →
      0 < qs.short_ma_period →
      qs.short_ma_period ≤ qs.long_ma_period →
      lookupKey stock_code (strat_update_price qs stock_code price).price_history =
        some prices →
      ((prices.length < qs.long_ma_period →
          (get_signal qs rm stock_code price).1 = none) ∧
       (qs.long_ma_period ≤ prices.length →
          (((get_signal qs rm stock_code price).1 = some Direction.buy ↔
             (pySliceLast qs.short_ma_period prices).sum / (qs.short_ma_period : ℚ) >
               (pySliceLast qs.long_ma_period prices).sum / (qs.long_ma_period : ℚ) ∧
             price > (pySliceLast qs.short_ma_period prices).sum / (qs.short_ma_period : ℚ) ∧
             lookupKey stock_code rm.positions = none) ∧
           ((get_signal qs rm stock_code price).1 = some Direction.sell ↔
             (pySliceLast qs.short_ma_period prices).sum / (qs.short_ma_period : ℚ) <
               (pySliceLast qs.long_ma_period prices).sum / (qs.long_ma_period : ℚ) ∧
             (lookupKey stock_code rm.positions).isSome = true))) ∧
       ((∀ x ∈ prices, x = price) → qs.long_ma_period ≤ prices.length →
          (get_signal qs rm stock_code price).1 = none)) := by
  intro qs rm stock_code price prices hmin hshort hsl hlook
  have hlong : 0 < qs.long_ma_period := lt_of_lt_of_le hshort hsl
  refine ⟨?_, ?_, ?_⟩
  · intro hlen
    unfold get_signal
    dsimp only
    rw [hlook]
    dsimp only
    rw [strat_update_price_min, hmin, if_pos hlen]
  · intro hlen
    unfold get_signal
    dsimp only
    rw [hlook]
    dsimp only
    rw [strat_update_price_min, hmin, if_neg (by omega), strat_update_price_short,
      strat_update_price_long,
      calculate_ma_of_lookup _ _ _ _ hlook (by omega),
      calculate_ma_of_lookup _ _ _ _ hlook (by omega)]
    dsimp only
    constructor
    · split_ifs with hc₁ hc₂
      · exact iff_of_true rfl hc₁
      · exact iff_of_false (by simp) hc₁
      · exact iff_of_false (by simp) hc₁
    · split_ifs with hc₁ hc₂
      · refine iff_of_false (by simp) ?_
        rintro ⟨hlt, -⟩
        exact lt_asymm hc₁.1 hlt
      · exact iff_of_true rfl hc₂
      · exact iff_of_false (by simp) hc₂
  · intro hconst hlen
    unfold get_signal
    dsimp only
    rw [hlook]
    dsimp only
    rw [strat_update_price_min, hmin, if_neg (by omega), strat_update_price_short,
      strat_update_price_long,
      calculate_ma_of_lookup _ _ _ _ hlook (by omega),
      calculate_ma_of_lookup _ _ _ _ hlook (by omega)]
    dsimp only
    rw [pySliceLast_const_mean prices price qs.short_ma_period hshort (le_trans hsl hlen)
        hconst,
      pySliceLast_const_mean prices price qs.long_ma_period hlong hlen hconst]
    rw [if_neg (fun hc => lt_irrefl price hc.1), if_neg (fun hc => lt_irrefl price hc.1)]

/-- Strategy whose symbol history is one tick short of the long period,
used to exercise the C8 theorem at a concrete input. -/
def crossWitnessQS : QuantStrategy :=
  { price_history := [("005930", [1, 2])], short_ma_period := 2, long_ma_period := 3,
    min_history_length := 3 }

theorem get_signal_crossover_spec_witness :
    (get_signal crossWitnessQS (defaultRiskManager 100000) "005930" 3).1 =
      some Direction.buy := by
  have h := get_signal_crossover_spec crossWitnessQS (defaultRiskManager 100000)
    "005930" 3 [1, 2, 3] rfl (by decide) (by decide) (by decide)
  refine ((h.2.1 (by decide)).1).mpr ⟨?_, ?_, rfl⟩
  · norm_num [pySliceLast, crossWitnessQS]
  · norm_num [pySliceLast, crossWitnessQS]

/-- Strategy holding a saturated all-equal history (length exactly
`3 × longPeriod`), for the C10 counterexample. -/
def constHistQS : QuantStrategy :=
  { price_history := [("005930", List.replicate 30 (1000 : ℚ))],
    short_ma_period := 3, long_ma_period := 10, min_history_length := 10 }

/-- C10 counterexample: two consecutive `get_signal` calls with the
same price do NOT always observe different history. With a saturated
constant history (length `3 × longPeriod`), appending the price and
truncating reproduces the identical history, so the second call
observes exactly the history the first call observed — and the whole
strategy state is unchanged. -/
theorem get_signal_same_price_same_history_counterexample :
    (List.replicate 30 (1000 : ℚ)).length = constHistQS.long_ma_period * 3 ∧
    (get_signal constHistQS (defaultRiskManager 100000) "005930" 1000).2 = constHistQS ∧
    lookupKey "005930"
        (get_signal (get_signal constHistQS (defaultRiskManager 100000) "005930" 1000).2
          (defaultRiskManager 100000) "005930" 1000).2.price_history =
      lookupKey "005930"
        (get_signal constHistQS (defaultRiskManager 100000) "005930" 1000).2.price_history := by
  refine ⟨by decide, by decide, by decide⟩

/-- C10 amended: `get_signal` first appends the current price to the
symbol's history (truncating to the most recent `3 × longPeriod`
entries) and evaluates the averages on that updated history; it changes
no other symbol's history and no other strategy field; and two
consecutive calls with the same price observe different history
whenever the history after the first call is still below the
`3 × longPeriod` bound. -/
theorem get_signal_updates_history_spec :
    ∀ (qs : QuantStrategy) (rm : RiskManager) (stock_code : String) (price : ℚ),
      (get_signal qs rm stock_code price).2 = strat_update_price qs stock_code price ∧
      lookupKey stock_code (get_signal qs rm stock_code price).2.price_history =
        some (if (((lookupKey stock_code qs.price_history).getD []) ++ [price]).length >
                  qs.long_ma_period * 3 then
                pySliceLast (qs.long_ma_period * 3)
                  (((lookupKey stock_code qs.price_history).getD []) ++ [price])
              else ((lookupKey stock_code qs.price_history).getD []) ++ [price]) ∧
      (∀ other, other ≠ stock_code →
        lookupKey other (get_signal qs rm stock_code price).2.price_history =
          lookupKey other qs.price_history) ∧
      (get_signal qs rm stock_code price).2.short_ma_period = qs.short_ma_period ∧
      (get_signal qs rm stock_code price).2.long_ma_period = qs.long_ma_period ∧
      (get_signal qs rm stock_code price).2.min_history_length = qs.min_history_length ∧
      (∀ h₁,
        lookupKey stock_code (get_signal qs rm stock_code price).2.price_history =
          some h₁ →
        h₁.length < qs.long_ma_period * 3 →
        lookupKey stock_code
            (get_signal (get_signal qs rm stock_code price).2 rm stock_code
              price).2.price_history = some (h₁ ++ [price]) ∧
        h₁ ++ [price] ≠ h₁) := by
  intro qs rm stock_code price
  refine ⟨rfl, ?_, ?_, rfl, rfl, rfl, ?_⟩
  · rw [get_signal_snd, lookup_strat_update_price]
  · intro other hne
    rw [get_signal_snd]
    unfold strat_update_price
    dsimp only
    rw [lookupKey_setKey_ne hne]
  · intro h₁ hlook hlen
    rw [get_signal_snd] at hlook
    constructor
    · rw [get_signal_snd, get_signal_snd, lookup_strat_update_price, hlook]
      simp only [Option.getD_some, strat_update_price_long]
      rw [if_neg (by simp only [List.length_append, List.length_singleton]; omega)]
    · intro heq
      have hcontra := congrArg List.length heq
      simp only [List.length_append, List.length_singleton] at hcontra
      omega

theorem get_signal_updates_history_spec_witness :
    lookupKey "005930"
        (get_signal (get_signal crossWitnessQS (defaultRiskManager 100000) "005930"
          3).2 (defaultRiskManager 100000) "005930" 3).2.price_history =
      some ([1, 2, 3] ++ [3]) ∧
    [(1 : ℚ), 2, 3] ++ [3] ≠ [1, 2, 3] :=
  (get_signal_updates_history_spec crossWitnessQS (defaultRiskManager 100000) "005930"
    3).2.2.2.2.2.2 [1, 2, 3] (by decide) (by decide)

/-! Invariant machinery for the pending-signal table. -/

theorem pendingUnique_of_subset {t₁ t₂ : SignalTable}
    (hsub : ∀ p ∈ t₁, p ∈ t₂) (h : pendingUnique t₂) : pendingUnique t₁ := by
  intro p₁ h₁ p₂ h₂ hs₁ hs₂ hst hd
  exact h p₁ (hsub p₁ h₁) p₂ (hsub p₂ h₂) hs₁ hs₂ hst hd

theorem mem_updateKey_elim {α : Type} {k : String} {f : α → α} {p : String × α} :
    ∀ {l : List (String × α)}, p ∈ updateKey k f l →
      p ∈ l ∨ ∃ q, q ∈ l ∧ p = (q.1, f q.2) := by
  intro l
  induction l with
  | nil => intro hp; exact absurd hp (by simp [updateKey])
  | cons q rest ih =>
      intro hp
      rw [updateKey] at hp
      by_cases hq : q.1 = k
      · rw [if_pos hq] at hp
        rcases List.mem_cons.mp hp with h₁ | h₁
        · exact Or.inr ⟨q, List.mem_cons_self q rest, h₁⟩
        · rcases ih h₁ with h₂ | ⟨r, hr, he⟩
          · exact Or.inl (List.mem_cons_of_mem q h₂)
          · exact Or.inr ⟨r, List.mem_cons_of_mem q hr, he⟩
      · rw [if_neg hq] at hp
        rcases List.mem_cons.mp hp with h₁ | h₁
        · exact Or.inl (h₁ ▸ List.mem_cons_self q rest)
        · rcases ih h₁ with h₂ | ⟨r, hr, he⟩
          · exact Or.inl (List.mem_cons_of_mem q h₂)
          · exact Or.inr ⟨r, List.mem_cons_of_mem q hr, he⟩

theorem pendingUnique_updateKey_expired (k : String) (t : SignalTable)
    (h : pendingUnique t) :
    pendingUnique (updateKey k (fun s => { s with status := SigStatus.expired }) t) := by
  intro p₁ h₁ p₂ h₂ hs₁ hs₂ hst hd
  rcases mem_updateKey_elim h₁ with m₁ | ⟨q₁, hq₁, he₁⟩
  · rcases mem_updateKey_elim h₂ with m₂ | ⟨q₂, hq₂, he₂⟩
    · exact h p₁ m₁ p₂ m₂ hs₁ hs₂ hst hd
    · rw [he₂] at hs₂
      exact absurd hs₂ (by simp)
  · rw [he₁] at hs₁
    exact absurd hs₁ (by simp)

theorem mem_sweep_stale {now : ℚ} {p : String × PendingSignal} {t : SignalTable}
    (h : p ∈ sweep_stale now t) : p ∈ t :=
  (List.mem_filter.mp h).1

theorem mem_drop_same_pair {stock_code : String} {dir : Direction}
    {p : String × PendingSignal} {t : SignalTable}
    (h : p ∈ drop_same_pair stock_code dir t) :
    p ∈ t ∧ ¬(p.2.status = SigStatus.pending ∧ p.2.stock_code = stock_code ∧
      p.2.signal = dir) := by
  have h₂ := List.mem_filter.mp h
  exact ⟨h₂.1, of_decide_eq_true h₂.2⟩

theorem mem_create_elim {t : SignalTable} {sig : PendingSignal} {now : ℚ}
    {p : String × PendingSignal}
    (hp : p ∈ create_or_replace_pending_signal t sig now) :
    p = (sig.signal_id, sig) ∨
      (p ∈ t ∧ ¬(p.2.status = SigStatus.pending ∧ p.2.stock_code = sig.stock_code ∧
        p.2.signal = sig.signal)) := by
  unfold create_or_replace_pending_signal setKey at hp
  rcases List.mem_append.mp hp with h₁ | h₁
  · have h₂ := mem_drop_same_pair (mem_of_mem_eraseKey h₁)
    exact Or.inr ⟨mem_sweep_stale h₂.1, h₂.2⟩
  · exact Or.inl (List.mem_singleton.mp h₁)

theorem pendingUnique_create (t : SignalTable) (sig : PendingSignal) (now : ℚ)
    (h : pendingUnique t) :
    pendingUnique (create_or_replace_pending_signal t sig now) := by
  intro p₁ h₁ p₂ h₂ hs₁ hs₂ hst hd
  rcases mem_create_elim h₁ with m₁ | ⟨m₁, hnp₁⟩
  · rcases mem_create_elim h₂ with m₂ | ⟨m₂, hnp₂⟩
    · rw [m₁, m₂]
    · rw [m₁] at hst hd
      exact absurd ⟨hs₂, hst.symm, hd.symm⟩ hnp₂
  · rcases mem_create_elim h₂ with m₂ | ⟨m₂, hnp₂⟩
    · rw [m₂] at hst hd
      exact absurd ⟨hs₁, hst, hd⟩ hnp₁
    · exact h p₁ m₁ p₂ m₂ hs₁ hs₂ hst hd

theorem pendingUnique_applyOp (t : SignalTable) (op : RegistryOp)
    (h : pendingUnique t) : pendingUnique (applyOp t op) := by
  cases op with
  | create sig now => exact pendingUnique_create t sig now h
  | approve signal_id now exec_result =>
      show pendingUnique (approve_signal t signal_id now exec_result).2.1
      unfold approve_signal
      cases hl : lookupKey signal_id t with
      | none => exact h
      | some sig =>
          dsimp only
          split_ifs with h₁ h₂ h₃
          · exact h
          · exact pendingUnique_updateKey_expired signal_id t h
          · exact pendingUnique_of_subset (fun p hp => mem_of_mem_eraseKey hp) h
          · exact pendingUnique_of_subset (fun p hp => mem_of_mem_eraseKey hp) h
  | reject signal_id =>
      show pendingUnique (reject_signal t signal_id).2.2
      unfold reject_signal
      cases hl : lookupKey signal_id t with
      | none => exact h
      | some sig =>
          exact pendingUnique_of_subset (fun p hp => mem_of_mem_eraseKey hp) h

theorem pendingUnique_applyOps (ops : List RegistryOp) :
    ∀ t : SignalTable, pendingUnique t → pendingUnique (applyOps ops t) := by
  induction ops with
  | nil => intro t h; exact h
  | cons op rest ih =>
      intro t h
      exact ih (applyOp t op) (pendingUnique_applyOp t op h)

/-- First created signal of the C4 double-create scenario. -/
def createdSigFirst : PendingSignal :=
  { signal_id := "sig-1", stock_code := "005930", signal := Direction.buy,
    price := 1000, suggested_qty := 1, reason := "ma-cross", created_at := 0,
    expires_at := 60, status := SigStatus.pending }

/-- Second created signal of the C4 double-create scenario, same
`(symbol, direction)` pair, fresh id. -/
def createdSigSecond : PendingSignal :=
  { signal_id := "sig-2", stock_code := "005930", signal := Direction.buy,
    price := 1010, suggested_qty := 1, reason := "ma-cross", created_at := 1,
    expires_at := 61, status := SigStatus.pending }

/-- C4: from the empty table, every sequence of create/approve/reject
operations leaves at most one live (pending, unexpired) signal per
`(symbol, direction)` pair; `create` never mutates a surviving entry
(a replaced pending signal is dropped without entering a terminal
state); and creating twice for the same pair before resolution leaves
exactly one pending entry, the one with the second id. -/
theorem pending_signal_unique_per_pair_spec :
    (∀ (ops : List RegistryOp) (now : ℚ),
      ∀ p₁ ∈ applyOps ops [], ∀ p₂ ∈ applyOps ops [],
        liveAt now p₁.2 → liveAt now p₂.2 →
        p₁.2.stock_code = p₂.2.stock_code → p₁.2.signal = p₂.2.signal → p₁ = p₂) ∧
    (∀ (t : SignalTable) (sig : PendingSignal) (now : ℚ),
      ∀ p ∈ create_or_replace_pending_signal t sig now,
        p = (sig.signal_id, sig) ∨ p ∈ t) ∧
    applyOps [RegistryOp.create createdSigFirst 0, RegistryOp.create createdSigSecond 1]
        [] = [("sig-2", createdSigSecond)] := by
  refine ⟨?_, ?_, by decide⟩
  · intro ops now p₁ h₁ p₂ h₂ hl₁ hl₂ hst hd
    have hbase : pendingUnique ([] : SignalTable) := by
      intro p hp
      exact absurd hp (List.not_mem_nil p)
    exact pendingUnique_applyOps ops [] hbase p₁ h₁ p₂ h₂ hl₁.1 hl₂.1 hst hd
  · intro t sig now p hp
    rcases mem_create_elim hp with h₁ | ⟨h₁, -⟩
    · exact Or.inl h₁
    · exact Or.inr h₁

theorem pending_signal_unique_per_pair_spec_witness :
    ("sig-1", createdSigFirst) = ("sig-1", createdSigFirst) ∧
    (("sig-2", createdSigSecond) = (createdSigSecond.signal_id, createdSigSecond) ∨
      ("sig-2", createdSigSecond) ∈ ([] : SignalTable)) :=
  ⟨pending_signal_unique_per_pair_spec.1 [RegistryOp.create createdSigFirst 0] 0
      ("sig-1", createdSigFirst) (by decide) ("sig-1", createdSigFirst) (by decide)
      ⟨rfl, by decide⟩ ⟨rfl, by decide⟩ rfl rfl,
   pending_signal_unique_per_pair_spec.2.1 [] createdSigSecond 1
      ("sig-2", createdSigSecond) (by decide)⟩

end Trading
